import Mathlib

/-!
Shallow embedding of the certificate verification core of
`command/certificate/verify.go` (function `verifyAction`): PEM bundle
decomposition, remote-chain handling, root pool resolution, the verdancy
calculator, and the dispatch between verdancy and path validation.

Timestamps and durations are modelled in hours as rationals.  The Go code
computes `percentUsed` with float64 arithmetic and then converts with
`int(...)`; the rational model is exact, and every concrete input used in a
theorem below keeps the pre-truncation value at distance at least 1/10 from
the nearest integer, so the float64 rounding error (below 10^-12 at these
magnitudes) cannot change the truncated result.  The one point where the
models genuinely differ is a zero-width validity window (`notAfter =
notBefore`), where Go divides by zero in float arithmetic; that point is
discussed at the theorems concerning the degenerate window.
-/

/-- Parsed certificate attributes used by the core: validity window
(`notBefore`/`notAfter`, in hours), structured names abstracted as naturals,
CA flag, subject-alternative names and extended key usages for policy
checks, and a serial standing in for the raw bytes that distinguish two
certificates. -/
structure Cert where
  serial : ℕ
  subject : ℕ
  issuer : ℕ
  notBefore : ℚ
  notAfter : ℚ
  isCA : Bool
  sans : List String
  extKeyUsage : List ℕ
  deriving DecidableEq, Repr

/-- Sub-reasons of a policy violation (spec taxonomy). -/
inductive PolicySub where
  | expired
  | notYetValid
  | hostnameMismatch
  | keyUsageMismatch
  | pathLengthExceeded
  deriving DecidableEq, Repr

/-- Error taxonomy of the core.  `leafParseError` models the
`errors.WithStack(err)` return when the first certificate-typed PEM block
fails DER parsing (present in the code, absent from the spec taxonomy);
`verdancyUndetermined` models the final `errors.Errorf("Failure to
determine verdancy...")` branch; `degenerateValidityWindow` is the
spec-mandated defensive error, included so that its absence from every code
path can be stated. -/
inductive VerifyError where
  | malformedInput
  | noCertificateFound
  | intermediateParseError
  | leafParseError
  | rootLoadError
  | degenerateValidityWindow
  | verdancyUndetermined
  | cycleDetected
  | pathNotFound
  | policyViolation (sub : PolicySub)
  | verificationFailed
  | emptyPeerChain
  deriving DecidableEq, Repr

/-- Quantized severity levels of the verdancy calculator. -/
inductive VerdancyLevel where
  | fresh
  | aging
  | stale
  | expired
  deriving DecidableEq, Repr

/-- Integer the code prints for each level (lines 193-205 print 3/2/1/0). -/
def VerdancyLevel.code : VerdancyLevel → ℕ
  | .fresh => 0
  | .aging => 1
  | .stale => 2
  | .expired => 3

/-- The Go conversion `int(x)` of a float truncates toward zero: floor for
a nonnegative value, negated floor of the negation for a negative one. -/
def truncQ (q : ℚ) : ℤ :=
  if q < 0 then -⌊-q⌋ else ⌊q⌋

/-- Pre-truncation value `(1 - remainingValidity/totalValidity) * 100`
with `remainingValidity = notAfter - now` (the code's
`time.Until(cert.NotAfter).Hours()`) and `totalValidity = notAfter -
notBefore` (the code's `cert.NotAfter.Sub(cert.NotBefore).Hours()`),
from line 186 of `verify.go`. -/
def percentUsedQ (notBefore notAfter now : ℚ) : ℚ :=
  (1 - (notAfter - now) / (notAfter - notBefore)) * 100

/-- The code's `percentUsed := int((1 - remainingValidity/totalValidity) *
100)`: truncation toward zero, not rounding. -/
def percentUsed (notBefore notAfter now : ℚ) : ℤ :=
  truncQ (percentUsedQ notBefore notAfter now)

/-- The banding cascade of lines 193-205 of `verify.go`, branch by branch:
`>= 100` expired (prints 3), `> 90` stale (2), `> 66 && < 90` aging (1),
`< 66 && > 1` fresh (0), `< 1` fresh (0), otherwise the
`errors.Errorf("Failure to determine verdancy for certificate")` return. -/
def verdancyBand (p : ℤ) : Except VerifyError VerdancyLevel :=
  if 100 ≤ p then .ok .expired
  else if 90 < p then .ok .stale
  else if 66 < p ∧ p < 90 then .ok .aging
  else if p < 66 ∧ 1 < p then .ok .fresh
  else if p < 1 then .ok .fresh
  else .error .verdancyUndetermined

/-- The whole verdancy branch (lines 183-205): compute `percentUsed` from
the certificate window and the current time, then band it.  Faithful to the
Go code whenever `notAfter ≠ notBefore`; at a zero-width window Go divides
by zero in float64 (the rational model's `x / 0 = 0` convention diverges
there, and Go's subsequent float-to-int conversion is
implementation-dependent), so no theorem below evaluates this function at
such a point for a level, only for the error kind, which is independent of
the integer produced. -/
def verdancyRun (notBefore notAfter now : ℚ) : Except VerifyError VerdancyLevel :=
  verdancyBand (percentUsed notBefore notAfter now)

/-- DER payload of a PEM block: bytes that `x509.ParseCertificate` accepts
(carrying the resulting certificate) or bytes it rejects. -/
inductive Der where
  | good (c : Cert)
  | bad
  deriving DecidableEq, Repr

/-- One decodable PEM block: its type tag (the code compares against
"CERTIFICATE") and its payload. -/
structure PemBlock where
  tag : String
  der : Der
  deriving DecidableEq, Repr

/-- Byte buffer abstracted as the sequence of PEM blocks `pem.Decode`
successively extracts, plus whether undecodable trailing bytes remain
afterwards (making the decode loop see a nil block while `len(crtBytes) >
0`).  Junk strictly between decodable blocks is skipped by `pem.Decode`
itself while scanning for the next BEGIN line, so only trailing junk is
observable to the loop. -/
structure PemBuffer where
  blocks : List PemBlock
  trailingGarbage : Bool
  deriving DecidableEq, Repr

/-- The decode loop of lines 148-164 of `verify.go` over the remaining
blocks, carrying the current leaf (`cert`, nil at entry) and the
accumulated re-encoded intermediate blocks (`ipems`).  A block whose tag is
not "CERTIFICATE" is skipped (`continue`); while no leaf exists a
certificate-typed block is parsed as the leaf, a parse failure returning
the `errors.WithStack(err)` error; once a leaf exists every
certificate-typed block is appended to `ipems` without parsing. -/
def scanBlocks : List PemBlock → Option Cert → List PemBlock →
    Except VerifyError (Option Cert × List PemBlock)
  | [], leaf, ipems => .ok (leaf, ipems)
  | b :: rest, leaf, ipems =>
    if b.tag ≠ "CERTIFICATE" then scanBlocks rest leaf ipems
    else
      match leaf with
      | none =>
        match b.der with
        | .good c => scanBlocks rest (some c) ipems
        | .bad => .error .leafParseError
      | some l => scanBlocks rest (some l) (ipems ++ [b])

/-- Go's `x509.CertPool.AppendCertsFromPEM` restricted to the re-encoded
blocks of `ipems` (all certificate-typed by construction): every block
whose payload parses contributes its certificate, unparseable ones are
skipped, and the call reports failure iff it adds no certificate. -/
def appendCertsFromPem (blocks : List PemBlock) : List Cert :=
  blocks.filterMap fun b => match b.der with | .good c => some c | .bad => none

/-- The file branch of `verifyAction` (lines 141-170): run the decode loop
over the blocks; if undecodable trailing bytes remain the loop returns the
invalid-PEM-block error; an exhausted buffer with no certificate seen
returns the no-certificate error; otherwise the accumulated intermediate
bytes are parsed back into the intermediate pool, failing when they are
non-empty yet yield no certificate. -/
def decompose (buf : PemBuffer) : Except VerifyError (Cert × List Cert) :=
  match scanBlocks buf.blocks none [] with
  | .error e => .error e
  | .ok (leafOpt, ipems) =>
    if buf.trailingGarbage then .error .malformedInput
    else
      match leafOpt with
      | none => .error .noCertificateFound
      | some leaf =>
        if ipems ≠ [] ∧ appendCertsFromPem ipems = [] then
          .error .intermediateParseError
        else .ok (leaf, appendCertsFromPem ipems)

/-- Certificate-typed blocks of a block list, in order. -/
def certBlocks (blocks : List PemBlock) : List PemBlock :=
  blocks.filter fun b => b.tag = "CERTIFICATE"

/-- Certificates carried by the parseable certificate-typed blocks, in
order. -/
def certsOf (blocks : List PemBlock) : List Cert :=
  appendCertsFromPem (certBlocks blocks)

/-- First certificate-typed block of a list together with the blocks after
it, if one exists. -/
def firstCertSplit : List PemBlock → Option (PemBlock × List PemBlock)
  | [] => none
  | b :: rest =>
    if b.tag = "CERTIFICATE" then some (b, rest) else firstCertSplit rest

/-- Whether the decode loop aborts parsing the leaf: true iff the first
certificate-typed block exists and its payload does not parse. -/
def firstCertBad (blocks : List PemBlock) : Bool :=
  match firstCertSplit blocks with
  | some (b, _) => match b.der with | .bad => true | .good _ => false
  | none => false

/-- URL branch of `verifyAction` (lines 124-134): with a non-empty fetched
chain the first presented certificate becomes the leaf, and the loop
`for _, pc := range peerCertificates { intermediatePool.AddCert(pc) }`
adds every presented certificate — the first included — to the
intermediate pool.  An empty chain would make `peerCertificates[0]` panic;
the fetcher's contract excludes it. -/
def urlBranch (peerCertificates : List Cert) : Option (Cert × List Cert) :=
  match peerCertificates with
  | [] => none
  | c :: _ => some (c, peerCertificates.foldl (fun pool pc => pool ++ [pc]) [])

/-- Lines 173-179 of `verifyAction`: a non-empty root specifier is passed
to `x509util.ReadCertPool` (abstracted as the `readCertPool` argument,
its source lying outside this file); on failure the code evaluates
`errors.Wrapf(err, "failure to load root certificate pool...")` but
discards the result and does not return, so the nil pool produced by the
failed call is kept and execution falls through. -/
def resolveRootPool (roots : String)
    (readCertPool : String → Except String (List Cert)) :
    Except VerifyError (Option (List Cert)) :=
  if roots = "" then .ok none
  else
    match readCertPool roots with
    | .ok pool => .ok (some pool)
    | .error _ => .ok none

/-- Observable outcome of the tail of `verifyAction` once the leaf and the
pools are in hand: the printed verdancy level, or successful path
validation. -/
inductive Outcome where
  | verdancyLevel (lvl : VerdancyLevel)
  | validated
  deriving DecidableEq, Repr

/-- Lines 181-239 of `verifyAction`: with `--verdancy` set, the verdancy
branch runs on the leaf's window alone and returns before the
`x509.VerifyOptions` value is even built; otherwise `cert.Verify` runs
with the host name, the root pool and the intermediate pool, its failure
wrapped ("failed to verify certificate").  The `verify` argument abstracts
the Go standard library call `cert.Verify(opts)`. -/
def mainAfterLoad (cert : Cert) (now : ℚ) (verdancy : Bool) (host : String)
    (rootPool : Option (List Cert)) (intermediatePool : List Cert)
    (verify : Cert → String → Option (List Cert) → List Cert →
      Except VerifyError (List Cert)) : Except VerifyError Outcome :=
  if verdancy then
    match verdancyRun cert.notBefore cert.notAfter now with
    | .error e => .error e
    | .ok lvl => .ok (.verdancyLevel lvl)
  else
    match verify cert host rootPool intermediatePool with
    | .error _ => .error .verificationFailed
    | .ok _ => .ok .validated

/-- Validation policy of spec section 3: optional expected host name and
required key usages (the empty list standing for "any"). -/
structure ValidationPolicy where
  expectedHostname : Option String
  requiredKeyUsages : List ℕ
  deriving DecidableEq, Repr

/-- Modelled from the spec: spec section 4.4 step 2's pool search (the Go
side is the standard library call `cert.Verify`, whose source is not part
of this repository) — the first candidate whose subject matches the
current certificate's issuer name and whose signature verifies over it,
the cryptographic check abstracted as `checkSig`. -/
def findIssuer (checkSig : Cert → Cert → Bool) (pool : List Cert)
    (cur : Cert) : Option Cert :=
  pool.find? fun p => p.subject == cur.issuer && checkSig p cur

/-- Modelled from the spec: chain building of spec section 4.4 steps 1-4
(`cert.Verify` is not part of this repository's source) — search the root
pool first, a root match terminating the chain; otherwise extend through
the intermediate pool, failing with CycleDetected when a certificate
already in the chain would be selected again and with PathNotFound when no
issuer can be located.  Fuel starts above the intermediate pool size,
which chain growth cannot exceed without revisiting a certificate. -/
def buildChain (checkSig : Cert → Cert → Bool) (rootPool ipool : List Cert) :
    ℕ → List Cert → Cert → Except VerifyError (List Cert)
  | 0, _, _ => .error .pathNotFound
  | n + 1, chain, cur =>
    match findIssuer checkSig rootPool cur with
    | some r => .ok (chain ++ [cur, r])
    | none =>
      match findIssuer checkSig ipool cur with
      | some i =>
        if i ∈ chain ∨ i = cur then .error .cycleDetected
        else buildChain checkSig rootPool ipool n (chain ++ [cur]) i
      | none => .error .pathNotFound

/-- Modelled from the spec: validity-period containment of the current
time, spec section 4.4 step 5, with step 6's sub-reasons. -/
def certTimeOK (now : ℚ) (c : Cert) : Except VerifyError Unit :=
  if now < c.notBefore then .error (.policyViolation .notYetValid)
  else if c.notAfter < now then .error (.policyViolation .expired)
  else .ok ()

/-- Modelled from the spec: key-usage-purpose compatibility on the leaf,
spec section 4.4 step 5 — every required usage must be offered. -/
def usageCheck (pol : ValidationPolicy) (leaf : Cert) : Except VerifyError Unit :=
  if pol.requiredKeyUsages.all (leaf.extKeyUsage.contains ·) then .ok ()
  else .error (.policyViolation .keyUsageMismatch)

/-- Modelled from the spec: leaf-only checks of spec section 4.4 step 5 —
host-name matching against the subject-alternative names when
`expectedHostname` is set, then key-usage compatibility. -/
def leafChecks (pol : ValidationPolicy) (leaf : Cert) : Except VerifyError Unit :=
  match pol.expectedHostname with
  | some h =>
    if h ∈ leaf.sans then usageCheck pol leaf
    else .error (.policyViolation .hostnameMismatch)
  | none => usageCheck pol leaf

/-- Modelled from the spec: per-member checks on the non-leaf part of the
chain, spec section 4.4 step 5 — validity containment plus the basic CA
constraint (spec folds CA-constraint failures into the path-length
sub-reason). -/
def caChainOK (now : ℚ) : List Cert → Except VerifyError Unit
  | [] => .ok ()
  | c :: rest =>
    match certTimeOK now c with
    | .error e => .error e
    | .ok _ =>
      if c.isCA then caChainOK now rest
      else .error (.policyViolation .pathLengthExceeded)

/-- Modelled from the spec: all policy checks over a structurally complete
leaf-first chain, spec section 4.4 step 5. -/
def policyCheckAll (pol : ValidationPolicy) (now : ℚ) (chain : List Cert) :
    Except VerifyError Unit :=
  match chain with
  | [] => .ok ()
  | leaf :: rest =>
    match certTimeOK now leaf with
    | .error e => .error e
    | .ok _ =>
      match leafChecks pol leaf with
      | .error e => .error e
      | .ok _ => caChainOK now rest

/-- Modelled from the spec: the whole Path Validator of spec section 4.4
(`cert.Verify` is not part of this repository's source) — build the chain
from the leaf, then apply the policy checks, all-or-nothing. -/
def validatePath (checkSig : Cert → Cert → Bool) (rootPool ipool : List Cert)
    (pol : ValidationPolicy) (now : ℚ) (leaf : Cert) :
    Except VerifyError (List Cert) :=
  match buildChain checkSig rootPool ipool (ipool.length + 1) [] leaf with
  | .error e => .error e
  | .ok chain =>
    match policyCheckAll pol now chain with
    | .error e => .error e
    | .ok _ => .ok chain

/-- Sample end-entity certificate for concrete witnesses. -/
def certA : Cert := ⟨1, 10, 20, 0, 1000, false, ["example.com"], []⟩

/-- Sample intermediate certificate. -/
def certB : Cert := ⟨2, 20, 30, 0, 1000, true, [], []⟩

/-- Second sample intermediate certificate. -/
def certC : Cert := ⟨3, 30, 30, 0, 1000, true, [], []⟩

/-- Sample bundle: a private key block, three certificates, and a CSR
block interleaved. -/
def sampleBlocks : List PemBlock :=
  [⟨"RSA PRIVATE KEY", Der.bad⟩, ⟨"CERTIFICATE", Der.good certA⟩,
    ⟨"CERTIFICATE", Der.good certB⟩, ⟨"CERTIFICATE REQUEST", Der.bad⟩,
    ⟨"CERTIFICATE", Der.good certC⟩]

/-- Buffer whose first certificate-typed block has an unparseable payload
and which ends in undecodable trailing bytes. -/
def badLeafGarbageBuf : PemBuffer := ⟨[⟨"CERTIFICATE", Der.bad⟩], true⟩

/-- Evaluation lemma: at notBefore=0, notAfter=1000h, now=999h the raw
value is 99.9 and the Go truncation yields 99. -/
theorem percentUsed_example_999 : percentUsed 0 1000 999 = 99 := by
  norm_num [percentUsed, percentUsedQ, truncQ]

/-- Evaluation lemma: at now=1001h (one hour past expiry) the raw value is
100.1 and truncation yields exactly 100. -/
theorem percentUsed_example_1001 : percentUsed 0 1000 1001 = 100 := by
  norm_num [percentUsed, percentUsedQ, truncQ]

/-- Evaluation lemma: at now=2001h the raw value is 200.1, truncating to
200, a value strictly above 100. -/
theorem percentUsed_example_2001 : percentUsed 0 1000 2001 = 200 := by
  norm_num [percentUsed, percentUsedQ, truncQ]

/-- Evaluation lemma: at now=500h (half the window) the value is exactly
50. -/
theorem percentUsed_example_500 : percentUsed 0 1000 500 = 50 := by
  norm_num [percentUsed, percentUsedQ, truncQ]

/-- C2 counterexample: at notBefore=0, notAfter=1000h, now=999h the code
does not produce percentUsed = 100 and does not emit Expired — the claim's
rounding model (`round(99.9) = 100`) misdescribes the Go `int(...)`
conversion, which truncates. -/
theorem c2_round_counterexample :
    percentUsed 0 1000 999 ≠ 100 ∧
      verdancyRun 0 1000 999 ≠ Except.ok VerdancyLevel.expired := by
  have h := percentUsed_example_999
  refine ⟨by rw [h]; decide, ?_⟩
  rw [verdancyRun, h]
  norm_num [verdancyBand]
  decide

/-- C2 amended: the calculator truncates toward zero rather than rounding;
at notBefore=0, notAfter=1000h, now=999h the raw value 99.9 truncates to
percentUsed = 99, which lands in the `> 90` band: level Stale (printed
2). -/
theorem c2_truncation_gives_stale :
    percentUsed 0 1000 999 = 99 ∧
      verdancyRun 0 1000 999 = Except.ok VerdancyLevel.stale := by
  have h := percentUsed_example_999
  refine ⟨h, ?_⟩
  rw [verdancyRun, h]
  norm_num [verdancyBand]

/-- C3: no code path of the verdancy branch ever produces the
DegenerateValidityWindow error the claim requires: the banding cascade can
only return a level or the generic verdancy-undetermined error, whatever
integer the (implementation-dependent, possibly division-by-zero-derived)
conversion feeds it, and the verdancy branch is exactly that cascade over
percentUsed. -/
theorem c3_degenerate_check_missing :
    (∀ p : ℤ, verdancyBand p ≠ Except.error VerifyError.degenerateValidityWindow) ∧
      ∀ notBefore notAfter now : ℚ,
        verdancyRun notBefore notAfter now ≠
          Except.error VerifyError.degenerateValidityWindow := by
  constructor
  · intro p
    unfold verdancyBand
    split_ifs <;> simp
  · intro notBefore notAfter now
    unfold verdancyRun verdancyBand
    split_ifs <;> simp

/-- C3 witness: the degenerate error is absent in particular at the
half-window point. -/
theorem c3_degenerate_check_missing_witness :
    verdancyRun 0 1000 500 ≠ Except.error VerifyError.degenerateValidityWindow :=
  c3_degenerate_check_missing.2 0 1000 500

/-- C7: at percentUsed exactly 90, exactly 66 and exactly 1 every band
test of lines 193-205 is false, so the code reaches the final `else` and
returns the verdancy-undetermined error instead of printing a level. -/
theorem c7_banding_gaps :
    verdancyBand 90 = Except.error VerifyError.verdancyUndetermined ∧
      verdancyBand 66 = Except.error VerifyError.verdancyUndetermined ∧
      verdancyBand 1 = Except.error VerifyError.verdancyUndetermined := by
  refine ⟨?_, ?_, ?_⟩ <;> norm_num [verdancyBand]

/-- C8 counterexample: one hour past expiry the raw value 100.1 truncates
to exactly 100, so percentUsed does not exceed 100 as the claim asserts
for this input. -/
theorem c8_exceeds_100_counterexample :
    percentUsed 0 1000 1001 = 100 ∧ ¬ 100 < percentUsed 0 1000 1001 := by
  have h := percentUsed_example_1001
  exact ⟨h, by rw [h]; decide⟩

/-- C8 amended: percentUsed is not clamped before banding — values above
100 are reachable (now=2001h gives 200) and band to Expired; at now=1001h
the value is exactly 100, also Expired; at now=500h it is 50, banding to
Fresh. -/
theorem c8_no_clamping :
    percentUsed 0 1000 1001 = 100 ∧
      verdancyRun 0 1000 1001 = Except.ok VerdancyLevel.expired ∧
      percentUsed 0 1000 2001 = 200 ∧
      verdancyRun 0 1000 2001 = Except.ok VerdancyLevel.expired ∧
      percentUsed 0 1000 500 = 50 ∧
      verdancyRun 0 1000 500 = Except.ok VerdancyLevel.fresh := by
  have h1 := percentUsed_example_1001
  have h2 := percentUsed_example_2001
  have h3 := percentUsed_example_500
  refine ⟨h1, ?_, h2, ?_, h3, ?_⟩ <;>
    simp only [verdancyRun, h1, h2, h3] <;> norm_num [verdancyBand]

/-- Once a leaf is fixed the scan never fails and appends exactly the
remaining certificate-typed blocks to the accumulator. -/
theorem scanBlocks_some (blocks : List PemBlock) (l : Cert) :
    ∀ ipems, scanBlocks blocks (some l) ipems =
      .ok (some l, ipems ++ certBlocks blocks) := by
  induction blocks with
  | nil => intro ipems; simp [scanBlocks, certBlocks]
  | cons b rest ih =>
    intro ipems
    by_cases hb : b.tag = "CERTIFICATE"
    · simp [scanBlocks, hb, ih, certBlocks, List.filter_cons]
    · simp [scanBlocks, hb, ih, certBlocks, List.filter_cons]

/-- Characterization of the scan started with no leaf, by the position of
the first certificate-typed block. -/
theorem scanBlocks_none (blocks : List PemBlock) :
    scanBlocks blocks none [] =
      match firstCertSplit blocks with
      | none => .ok (none, [])
      | some (b, rest) =>
        match b.der with
        | .bad => .error .leafParseError
        | .good c => .ok (some c, certBlocks rest) := by
  induction blocks with
  | nil => simp [scanBlocks, firstCertSplit]
  | cons b rest ih =>
    by_cases hb : b.tag = "CERTIFICATE"
    · cases hd : b.der with
      | bad => simp [scanBlocks, firstCertSplit, hb, hd]
      | good c => simp [scanBlocks, firstCertSplit, hb, hd, scanBlocks_some]
    · simp [scanBlocks, firstCertSplit, hb, ih]

/-- The certificate-typed blocks are the first one (when it exists)
followed by those of the remainder. -/
theorem certBlocks_eq_split (blocks : List PemBlock) :
    certBlocks blocks =
      match firstCertSplit blocks with
      | none => []
      | some (b, rest) => b :: certBlocks rest := by
  induction blocks with
  | nil => simp [certBlocks, firstCertSplit]
  | cons b rest ih =>
    by_cases hb : b.tag = "CERTIFICATE"
    · simp [certBlocks, firstCertSplit, hb, List.filter_cons]
    · have h1 : certBlocks (b :: rest) = certBlocks rest := by
        simp [certBlocks, List.filter_cons, hb]
      have h2 : firstCertSplit (b :: rest) = firstCertSplit rest := by
        simp [firstCertSplit, hb]
      rw [h1, h2, ih]

/-- Membership facts about the first certificate-typed block. -/
theorem firstCertSplit_mem (blocks : List PemBlock) (b : PemBlock)
    (rest : List PemBlock) (h : firstCertSplit blocks = some (b, rest)) :
    b ∈ blocks ∧ b.tag = "CERTIFICATE" ∧ ∀ x ∈ rest, x ∈ blocks := by
  induction blocks with
  | nil => simp [firstCertSplit] at h
  | cons hd tl ih =>
    by_cases hb : hd.tag = "CERTIFICATE"
    · simp [firstCertSplit, hb] at h
      obtain ⟨rfl, rfl⟩ := h
      exact ⟨List.mem_cons_self _ _, hb, fun x hx => List.mem_cons_of_mem _ hx⟩
    · simp [firstCertSplit, hb] at h
      obtain ⟨h1, h2, h3⟩ := ih h
      exact ⟨List.mem_cons_of_mem _ h1, h2,
        fun x hx => List.mem_cons_of_mem _ (h3 x hx)⟩

/-- Blocks selected by `certBlocks` come from the list and carry the
certificate tag. -/
theorem certBlocks_mem (blocks : List PemBlock) (b : PemBlock)
    (h : b ∈ certBlocks blocks) : b ∈ blocks ∧ b.tag = "CERTIFICATE" := by
  have := List.mem_filter.mp h
  exact ⟨this.1, by simpa using this.2⟩

/-- A non-empty block list all of whose payloads parse contributes at
least one certificate. -/
theorem appendCertsFromPem_ne_nil (blocks : List PemBlock)
    (hwf : ∀ b ∈ blocks, b.der ≠ Der.bad) (hne : blocks ≠ []) :
    appendCertsFromPem blocks ≠ [] := by
  cases blocks with
  | nil => exact absurd rfl hne
  | cons b rest =>
    have hb := hwf b (List.mem_cons_self _ _)
    cases hd : b.der with
    | bad => exact absurd hd hb
    | good c => simp [appendCertsFromPem, hd]

/-- Full characterization of the file-branch decomposition by the first
certificate-typed block, the trailing bytes and the remaining
certificate-typed blocks. -/
theorem decompose_eq (buf : PemBuffer) :
    decompose buf =
      match firstCertSplit buf.blocks with
      | none =>
        if buf.trailingGarbage then .error .malformedInput
        else .error .noCertificateFound
      | some (b, rest) =>
        match b.der with
        | .bad => .error .leafParseError
        | .good c =>
          if buf.trailingGarbage then .error .malformedInput
          else if certBlocks rest ≠ [] ∧ appendCertsFromPem (certBlocks rest) = [] then
            .error .intermediateParseError
          else .ok (c, appendCertsFromPem (certBlocks rest)) := by
  unfold decompose
  rw [scanBlocks_none buf.blocks]
  cases hfs : firstCertSplit buf.blocks with
  | none => by_cases hg : buf.trailingGarbage <;> simp [hg]
  | some pr =>
    obtain ⟨b, rest⟩ := pr
    cases hd : b.der with
    | bad => simp [hd]
    | good c => by_cases hg : buf.trailingGarbage <;> simp [hd, hg]

/-- C5: for a buffer of decodable blocks, none of whose certificate-typed
blocks has an unparseable payload, whose certificate-typed blocks carry
the certificates c, cs (N = 1 + cs.length ≥ 1), decomposition succeeds
with the first certificate as the leaf and exactly the subsequent ones as
the intermediate pool — the empty pool when N = 1 — regardless of
interleaved non-certificate blocks. -/
theorem c5_first_cert_is_leaf_rest_pool (blocks : List PemBlock)
    (c : Cert) (cs : List Cert)
    (hwf : ∀ b ∈ blocks, b.tag = "CERTIFICATE" → b.der ≠ Der.bad)
    (hc : certsOf blocks = c :: cs) :
    decompose ⟨blocks, false⟩ = .ok (c, cs) := by
  rw [decompose_eq]
  cases hfs : firstCertSplit blocks with
  | none =>
    have hcb := certBlocks_eq_split blocks
    rw [hfs] at hcb
    rw [certsOf, hcb] at hc
    simp [appendCertsFromPem] at hc
  | some pr =>
    obtain ⟨b, rest⟩ := pr
    obtain ⟨hbmem, hbtag, hrest⟩ := firstCertSplit_mem blocks b rest hfs
    have hbgood := hwf b hbmem hbtag
    cases hd : b.der with
    | bad => exact absurd hd hbgood
    | good cb =>
      have hcb := certBlocks_eq_split blocks
      rw [hfs] at hcb
      rw [certsOf, hcb] at hc
      have hsplitc : appendCertsFromPem (b :: certBlocks rest)
          = cb :: appendCertsFromPem (certBlocks rest) := by
        simp [appendCertsFromPem, hd]
      rw [hsplitc] at hc
      injection hc with h1 h2
      subst h1
      subst h2
      by_cases hnil : certBlocks rest = []
      · simp [hfs, hd, hnil]
      · have hgoodrest : ∀ x ∈ certBlocks rest, x.der ≠ Der.bad := by
          intro x hx
          obtain ⟨hxr, hxtag⟩ := certBlocks_mem rest x hx
          exact hwf x (hrest x hxr) hxtag
        have hne := appendCertsFromPem_ne_nil (certBlocks rest) hgoodrest hnil
        simp [hfs, hd, hne]

/-- C5 witness: the sample bundle decomposes into certA as leaf and
exactly certB and certC as intermediates, the key and CSR blocks
skipped. -/
theorem c5_first_cert_is_leaf_rest_pool_witness :
    decompose ⟨sampleBlocks, false⟩ = .ok (certA, [certB, certC]) :=
  c5_first_cert_is_leaf_rest_pool sampleBlocks certA [certB, certC]
    (by decide) (by rfl)

/-- The scan gives the same answer on the certificate-typed blocks alone:
non-certificate blocks are invisible to it. -/
theorem scanBlocks_certBlocks (blocks : List PemBlock) :
    ∀ leaf ipems, scanBlocks (certBlocks blocks) leaf ipems =
      scanBlocks blocks leaf ipems := by
  induction blocks with
  | nil => intro leaf ipems; simp [certBlocks]
  | cons b rest ih =>
    intro leaf ipems
    by_cases hb : b.tag = "CERTIFICATE"
    · have h1 : certBlocks (b :: rest) = b :: certBlocks rest := by
        simp [certBlocks, List.filter_cons, hb]
      rw [h1]
      show scanBlocks (b :: certBlocks rest) leaf ipems = _
      cases leaf with
      | none =>
        cases hd : b.der with
        | bad => simp [scanBlocks, hb, hd]
        | good c => simp [scanBlocks, hb, hd, ih]
      | some l => simp [scanBlocks, hb, ih]
    · have h1 : certBlocks (b :: rest) = certBlocks rest := by
        simp [certBlocks, List.filter_cons, hb]
      rw [h1]
      have h2 : scanBlocks (b :: rest) leaf ipems = scanBlocks rest leaf ipems := by
        simp [scanBlocks, hb]
      rw [h2, ih]

/-- C6 counterexample: this buffer contains bytes that cannot be decoded
as valid PEM before exhaustion (trailing garbage), yet decomposition fails
with the leaf DER-parse error, not with MalformedInput — the loop aborts
on the unparseable first certificate-typed block before it reaches the
undecodable bytes, so "fails with MalformedInput exactly when some block
cannot be decoded" is false in the if direction. -/
theorem c6_malformed_not_iff_counterexample :
    decompose badLeafGarbageBuf = Except.error VerifyError.leafParseError ∧
      badLeafGarbageBuf.trailingGarbage = true ∧
      decompose badLeafGarbageBuf ≠ Except.error VerifyError.malformedInput := by
  have hval : decompose badLeafGarbageBuf = Except.error VerifyError.leafParseError := rfl
  refine ⟨hval, rfl, ?_⟩
  rw [hval]
  simp

/-- C6 amended: MalformedInput is returned exactly when undecodable
trailing bytes are present and the loop does not earlier abort on an
unparseable first certificate-typed block; NoCertificateFound exactly when
the buffer is exhausted (no trailing junk) having seen no
certificate-typed block; and non-certificate-typed blocks are skipped,
never errors — decomposing the certificate-typed blocks alone gives the
same result. -/
theorem c6_error_conditions :
    (∀ buf : PemBuffer, decompose buf = Except.error VerifyError.malformedInput ↔
        buf.trailingGarbage = true ∧ firstCertBad buf.blocks = false) ∧
      (∀ buf : PemBuffer, decompose buf = Except.error VerifyError.noCertificateFound ↔
        buf.trailingGarbage = false ∧ firstCertSplit buf.blocks = none) ∧
      ∀ buf : PemBuffer,
        decompose ⟨certBlocks buf.blocks, buf.trailingGarbage⟩ = decompose buf := by
  refine ⟨?_, ?_, ?_⟩
  · intro buf
    rw [decompose_eq]
    cases hfs : firstCertSplit buf.blocks with
    | none =>
      by_cases hg : buf.trailingGarbage <;> simp [hg, firstCertBad, hfs]
    | some pr =>
      obtain ⟨b, rest⟩ := pr
      cases hd : b.der with
      | bad => simp [firstCertBad, hfs, hd]
      | good c =>
        by_cases hg : buf.trailingGarbage
        · simp [hg, firstCertBad, hfs, hd]
        · simp only [hg, if_false, Bool.false_eq_true, false_and, iff_false]
          split_ifs <;> simp [hd]
  · intro buf
    rw [decompose_eq]
    cases hfs : firstCertSplit buf.blocks with
    | none =>
      by_cases hg : buf.trailingGarbage <;> simp [hg, hfs]
    | some pr =>
      obtain ⟨b, rest⟩ := pr
      cases hd : b.der with
      | bad => simp [hfs, hd]
      | good c =>
        by_cases hg : buf.trailingGarbage
        · simp [hg, hfs, hd]
        · simp only [hg, if_false, Bool.false_eq_true, false_and, iff_false]
          split_ifs <;> simp [hfs, hd]
  · intro buf
    unfold decompose
    rw [scanBlocks_certBlocks]

/-- Appending each element to the accumulator in turn appends the whole
list. -/
theorem foldl_append_singleton (l : List Cert) :
    ∀ acc : List Cert, l.foldl (fun pool pc => pool ++ [pc]) acc = acc ++ l := by
  induction l with
  | nil => intro acc; simp
  | cons x xs ih => intro acc; simp [List.foldl_cons, ih]

/-- C4 counterexample: with a presented chain of two distinct
certificates, the intermediate pool receives both, the leaf certA
included, so the pool is not "exactly the remaining certificates". -/
theorem c4_leaf_added_to_pool_counterexample :
    urlBranch [certA, certB] = some (certA, [certA, certB]) ∧
      ([certA, certB] : List Cert) ≠ [certB] := by
  constructor
  · rfl
  · intro h
    have := congrArg List.length h
    simp at this

/-- C4 amended: for every non-empty presented chain the first certificate
becomes the leaf, and the intermediate pool is populated with all the
presented certificates — the first one included, not only the
remainder. -/
theorem c4_all_peer_certs_pooled (c : Cert) (rest : List Cert) :
    urlBranch (c :: rest) = some (c, c :: rest) := by
  unfold urlBranch
  rw [foldl_append_singleton]
  rfl

/-- C1: when the root specifier is non-empty and loading the root pool
fails, `verifyAction` does not fail — the `errors.Wrapf` result on line
177 is discarded without a `return`, so the nil pool from the failed call
is kept and control proceeds to verdancy or validation exactly as if no
root source had been given. -/
theorem c1_root_load_failure_swallowed (roots : String)
    (readCertPool : String → Except String (List Cert)) (msg : String)
    (hne : roots ≠ "") (hfail : readCertPool roots = .error msg) :
    resolveRootPool roots readCertPool = .ok none := by
  unfold resolveRootPool
  simp [hne, hfail]

/-- C1 witness: a loader failing on a concrete missing path still yields
success with no root pool. -/
theorem c1_root_load_failure_swallowed_witness :
    resolveRootPool "missing.pem" (fun _ => .error "no such file") = .ok none :=
  c1_root_load_failure_swallowed "missing.pem" (fun _ => .error "no such file")
    "no such file" (by simp) rfl

/-- C9: in verdancy mode the outcome depends only on the leaf's validity
window and the current time — the host name, the root pool, the
intermediate pool and even the validation procedure itself can all vary
without changing the result, and path validation is never consulted. -/
theorem c9_verdancy_ignores_pools (cert : Cert) (now : ℚ)
    (host1 host2 : String) (root1 root2 : Option (List Cert))
    (ipool1 ipool2 : List Cert)
    (verify1 verify2 : Cert → String → Option (List Cert) → List Cert →
      Except VerifyError (List Cert)) :
    mainAfterLoad cert now true host1 root1 ipool1 verify1 =
      mainAfterLoad cert now true host2 root2 ipool2 verify2 := by
  simp [mainAfterLoad]

/-- C10: the path validator is a pure total function of the signature
checker, the pools, the policy, the current time and the leaf, so two runs
on identical inputs return identical results — the same chain on success,
the same error kind on failure. -/
theorem c10_validation_deterministic (checkSig : Cert → Cert → Bool)
    (rootPool ipool : List Cert) (pol : ValidationPolicy) (now : ℚ)
    (leaf : Cert) (r1 r2 : Except VerifyError (List Cert))
    (h1 : validatePath checkSig rootPool ipool pol now leaf = r1)
    (h2 : validatePath checkSig rootPool ipool pol now leaf = r2) :
    r1 = r2 :=
  h1.symm.trans h2

/-- C10 witness: two runs on a concrete input (empty pools; both runs fail
with PathNotFound) agree. -/
theorem c10_validation_deterministic_witness :
    validatePath (fun _ _ => true) [] [] ⟨none, []⟩ 0 certA =
      validatePath (fun _ _ => true) [] [] ⟨none, []⟩ 0 certA :=
  c10_validation_deterministic (fun _ _ => true) [] [] ⟨none, []⟩ 0 certA
    (Except.error VerifyError.pathNotFound) (Except.error VerifyError.pathNotFound)
    rfl rfl
